import Mathlib

/-!
Verification of the worker scheduling and job-lifecycle engine of
`datajoint-utilities` (`datajoint_utilities/dj_worker`), via a shallow
embedding of the relevant Python code into Lean.

Conventions of the embedding:
* Python dicts that get fingerprinted are modelled as association lists of
  already-`str()`-rendered keys and values.
* The MD5 digest consumed by `dict_to_uuid` is modelled as an abstract
  function on the character stream it is fed (the stream itself is modelled
  exactly: `str(k)` then `str(v)` for the items in Python sorted order).
* Wall-clock instants are rationals, machine integers are `Int`/`Nat`.
* Database tables are lists of rows; a DataJoint transaction is a single
  state transition of the model.
-/

namespace DJWorker

/-- Lexicographic "less or equal" on pairs: exactly how Python's `sorted()`
compares the `(key, value)` tuples produced by `dict.items()`. -/
def lexLe {α β : Type} [LinearOrder α] [LinearOrder β] (a b : α × β) : Prop :=
  a.1 < b.1 ∨ (a.1 = b.1 ∧ a.2 ≤ b.2)

instance lexLeDecidable {α β : Type} [LinearOrder α] [LinearOrder β] :
    DecidableRel (@lexLe α β _ _) :=
  fun a b => inferInstanceAs (Decidable (a.1 < b.1 ∨ (a.1 = b.1 ∧ a.2 ≤ b.2)))

instance lexLeTotal {α β : Type} [LinearOrder α] [LinearOrder β] :
    IsTotal (α × β) (@lexLe α β _ _) where
  total a b := by
    rcases lt_trichotomy a.1 b.1 with h | h | h
    · exact Or.inl (Or.inl h)
    · rcases le_total a.2 b.2 with h2 | h2
      · exact Or.inl (Or.inr ⟨h, h2⟩)
      · exact Or.inr (Or.inr ⟨h.symm, h2⟩)
    · exact Or.inr (Or.inl h)

instance lexLeTrans {α β : Type} [LinearOrder α] [LinearOrder β] :
    IsTrans (α × β) (@lexLe α β _ _) where
  trans a b c hab hbc := by
    rcases hab with h1 | ⟨h1e, h1v⟩
    · rcases hbc with h2 | ⟨h2e, _⟩
      · exact Or.inl (h1.trans h2)
      · exact Or.inl (lt_of_lt_of_eq h1 h2e)
    · rcases hbc with h2 | ⟨h2e, h2v⟩
      · exact Or.inl (lt_of_eq_of_lt h1e h2)
      · exact Or.inr ⟨h1e.trans h2e, h1v.trans h2v⟩

instance lexLeAntisymm {α β : Type} [LinearOrder α] [LinearOrder β] :
    IsAntisymm (α × β) (@lexLe α β _ _) where
  antisymm a b hab hba := by
    rcases hab with h1 | ⟨h1e, h1v⟩ <;> rcases hba with h2 | ⟨h2e, h2v⟩
    · exact absurd (h1.trans h2) (lt_irrefl _)
    · exact absurd h1 (by rw [h2e]; exact lt_irrefl _)
    · exact absurd h2 (by rw [h1e]; exact lt_irrefl _)
    · exact Prod.ext h1e (le_antisymm h1v h2v)

/-- The exact character stream that `dict_to_uuid` feeds to the MD5 hash:
`for k, v in sorted(key.items()): hashed.update(str(k)); hashed.update(str(v))`.
Keys and values are modelled already `str()`-rendered. -/
def serializeItems (m : List (String × String)) : List Char :=
  (List.insertionSort lexLe m).foldr (fun kv acc => kv.1.data ++ (kv.2.data ++ acc)) []

/-- Model of `datajoint_utilities.dict_to_uuid`: the MD5-to-UUID digest
(an opaque deterministic map, abstracted as `digest`) applied to the
sorted-items character stream. -/
def dict_to_uuid (digest : List Char → List Char) (m : List (String × String)) : List Char :=
  digest (serializeItems m)

/-- Sorted lists that are permutations of each other coincide
(for the Python tuple order on items). -/
theorem insertionSort_perm_eq {α β : Type} [LinearOrder α] [LinearOrder β]
    (m1 m2 : List (α × β)) (h : m1.Perm m2) :
    List.insertionSort lexLe m1 = List.insertionSort lexLe m2 :=
  List.eq_of_perm_of_sorted
    (((List.perm_insertionSort lexLe m1).trans h).trans
      (List.perm_insertionSort lexLe m2).symm)
    (List.sorted_insertionSort lexLe m1) (List.sorted_insertionSort lexLe m2)

/-- C8: the fingerprint function `dict_to_uuid` is deterministic and
insensitive to key insertion order: any two mappings that are equal as
collections of key-value pairs receive the same fingerprint, whatever the
(deterministic) digest is. -/
theorem claim_C8_dict_to_uuid_order_insensitive
    (digest : List Char → List Char) (m1 m2 : List (String × String))
    (h : m1.Perm m2) :
    dict_to_uuid digest m1 = dict_to_uuid digest m2 := by
  unfold dict_to_uuid serializeItems
  rw [insertionSort_perm_eq m1 m2 h]

/-- Witness for C8 at a concrete pair of mappings differing only in
insertion order. -/
theorem claim_C8_witness :
    dict_to_uuid id [("b", "2"), ("a", "1")] = dict_to_uuid id [("a", "1"), ("b", "2")] :=
  claim_C8_dict_to_uuid_order_insensitive id _ _ (List.Perm.swap ("a", "1") ("b", "2") [])

/-! ### The run loop: `_keep_running`, idle accounting, `run()` termination

`DataJointWorker._keep_running` reads
`exceed_run_duration = not (time.time() - self._run_start_time < self._run_duration
                            or self._run_duration < 0)` and
`exceed_max_idled_cycle = 0 < self._max_idled_cycle < self._idled_cycle_count`,
returning `not (exceed_run_duration or exceed_max_idled_cycle)`.
Wall-clock elapsed time is modelled as a rational. -/

/-- `DataJointWorker._keep_running`, translated condition for condition. -/
def keepRunning (elapsed : ℚ) (runDuration : Int) (maxIdledCycle : Int)
    (idledCycleCount : Nat) : Bool :=
  let exceedRunDuration : Bool :=
    ! (decide (elapsed < (runDuration : ℚ)) || decide (runDuration < 0))
  let exceedMaxIdledCycle : Bool :=
    decide (0 < maxIdledCycle) && decide (maxIdledCycle < (idledCycleCount : Int))
  ! (exceedRunDuration || exceedMaxIdledCycle)

/-- Outcome of one iteration of the `while` body of `run()`:
`_run_once()` either returned a processed-job count or raised. -/
inductive CycleOutcome
  | ok (successCount : Nat)
  | exc
  deriving DecidableEq

/-- The value of `self._idled_cycle_count` after the first `k` cycles of the
loop body `try: success_count = self._run_once() except: logger.error(...)
else: self._idled_cycle_count += bool(not success_count)`.
Note the `else` clause: a raising cycle adds nothing. -/
def idledAfter (out : Nat → CycleOutcome) : Nat → Nat
  | 0 => 0
  | k + 1 =>
    idledAfter out k +
      match out k with
      | .ok 0 => 1
      | .ok (_ + 1) => 0
      | .exc => 0

/-- How many cycle exceptions have been caught and logged
(`logger.error(str(e))`) after the first `k` cycles. -/
def caughtAfter (out : Nat → CycleOutcome) : Nat → Nat
  | 0 => 0
  | k + 1 =>
    caughtAfter out k +
      match out k with
      | .ok _ => 0
      | .exc => 1

/-- The termination-relevant configuration of a `DataJointWorker`. -/
structure WorkerCfg where
  runDuration : Int
  maxIdledCycle : Int

/-- Environment of one `run()` invocation: the elapsed wall-clock time at the
`k`-th `_keep_running()` check and the outcome of the `k`-th cycle. -/
structure RunTrace where
  elapsedAt : Nat → ℚ
  cycleOutcome : Nat → CycleOutcome

/-- The `_keep_running()` check before cycle `k`. -/
def keepAt (cfg : WorkerCfg) (tr : RunTrace) (k : Nat) : Bool :=
  keepRunning (tr.elapsedAt k) cfg.runDuration cfg.maxIdledCycle
    (idledAfter tr.cycleOutcome k)

/-- `run()` executes exactly `k` cycles: the first `k` continuation checks
pass and the check after cycle `k` fails. -/
def stopsAtCycle (cfg : WorkerCfg) (tr : RunTrace) (k : Nat) : Prop :=
  keepAt cfg tr k = false ∧ ∀ j, j < k → keepAt cfg tr j = true

/-- Result of `populate(**settings)` for a `dj_table` step: the code only
counts jobs when the returned status is a dict. -/
inductive PopStatus
  | dict (successCount : Nat) (errorListLength : Nat)
  | nonDict
  deriving DecidableEq

/-- One step execution inside `_run_once`: a DataJoint table populate or a
function call (which may raise, carrying an exception message). -/
inductive StepOutcome
  | djTable (status : PopStatus)
  | funcStep (raised : Option String)
  deriving DecidableEq

/-- The `success_count` accumulated by `_run_once` over the step list:
`success_count += status["success_count"] + len(status["error_list"])`
only for dict results of table steps; function steps never contribute. -/
def runOnceCount : List StepOutcome → Nat
  | [] => 0
  | .djTable (.dict s e) :: rest => s + e + runOnceCount rest
  | .djTable .nonDict :: rest => runOnceCount rest
  | .funcStep _ :: rest => runOnceCount rest

/-- Characterization of when `_keep_running()` answers `False`. -/
theorem keepRunning_eq_false_iff (elapsed : ℚ) (rd mic : Int) (icc : Nat) :
    keepRunning elapsed rd mic icc = false ↔
      ((0 ≤ rd ∧ (rd : ℚ) ≤ elapsed) ∨ (0 < mic ∧ mic < (icc : Int))) := by
  show (!((!(decide (elapsed < (rd : ℚ)) || decide (rd < 0))) ||
      (decide (0 < mic) && decide (mic < (icc : Int))))) = false ↔ _
  rw [Bool.not_eq_false']
  simp only [Bool.or_eq_true, Bool.not_eq_true', Bool.or_eq_false_iff,
    Bool.and_eq_true, decide_eq_true_eq, decide_eq_false_iff_not, not_lt]
  constructor
  · rintro (⟨h1, h2⟩ | h)
    · exact Or.inl ⟨h2, h1⟩
    · exact Or.inr h
  · rintro (⟨h1, h2⟩ | h)
    · exact Or.inl ⟨h2, h1⟩
    · exact Or.inr h

/-- All-idle traces accumulate one idled cycle per cycle. -/
theorem idledAfter_all_zero (out : Nat → CycleOutcome) :
    ∀ k, (∀ j, j < k → out j = .ok 0) → idledAfter out k = k
  | 0, _ => rfl
  | k + 1, h => by
    have hk := idledAfter_all_zero out k (fun j hj => h j (Nat.lt_succ_of_lt hj))
    simp [idledAfter, hk, h k (Nat.lt_succ_self k)]

/-- With the duration stop disabled and `max_idled_cycle = m > 0`, a run of
`m + 1` consecutive zero-job cycles stops the loop exactly after cycle
`m + 1`. -/
theorem idle_budget_stop (m : Nat) (rd : Int) (elapsedAt : Nat → ℚ)
    (out : Nat → CycleOutcome) (hm : 0 < m) (hrd : rd < 0)
    (hzero : ∀ j, j ≤ m → out j = .ok 0) :
    stopsAtCycle ⟨rd, (m : Int)⟩ ⟨elapsedAt, out⟩ (m + 1) := by
  constructor
  · show keepRunning (elapsedAt (m + 1)) rd (m : Int) (idledAfter out (m + 1)) = false
    refine (keepRunning_eq_false_iff _ _ _ _).mpr (Or.inr ⟨?_, ?_⟩)
    · exact_mod_cast hm
    · rw [idledAfter_all_zero out (m + 1) (fun j hj => hzero j (Nat.lt_succ_iff.mp hj))]
      exact_mod_cast Nat.lt_succ_self m
  · intro j hj
    have hjm : j ≤ m := Nat.lt_succ_iff.mp hj
    show keepRunning (elapsedAt j) rd (m : Int) (idledAfter out j) = true
    rcases Bool.eq_false_or_eq_true
        (keepRunning (elapsedAt j) rd (m : Int) (idledAfter out j)) with ht | hf
    · exact ht
    · exfalso
      rcases (keepRunning_eq_false_iff _ _ _ _).mp hf with ⟨h0, _⟩ | ⟨_, hlt⟩
      · exact absurd hrd (not_lt.mpr h0)
      · rw [idledAfter_all_zero out j
          (fun i hi => hzero i (le_of_lt (lt_of_lt_of_le hi hjm)))] at hlt
        have hji : (j : Int) ≤ (m : Int) := by exact_mod_cast hjm
        omega

/-- All-function step lists have processed-job count 0. -/
theorem runOnceCount_all_func (outs : List StepOutcome)
    (h : ∀ o ∈ outs, ∃ r, o = StepOutcome.funcStep r) : runOnceCount outs = 0 := by
  induction outs with
  | nil => rfl
  | cons o rest ih =>
    obtain ⟨r, rfl⟩ := h o (List.mem_cons_self o rest)
    simpa [runOnceCount] using ih (fun o ho => h o (List.mem_cons_of_mem _ ho))

/-- C1: the continuation test returns `False` exactly when
(`run_duration >= 0` and elapsed `>= run_duration`) or (`max_idled_cycle > 0`
and `idled_cycle_count > max_idled_cycle`); a negative `run_duration` never
triggers the duration stop and a non-positive `max_idled_cycle` never
triggers the idle stop; `max_idled_cycle + 1` consecutive zero-job cycles
stop the loop, and a non-zero cycle never resets the cumulative idle
counter. -/
theorem claim_C1_keep_running :
    (∀ (elapsed : ℚ) (rd mic : Int) (icc : Nat),
      keepRunning elapsed rd mic icc = false ↔
        ((0 ≤ rd ∧ (rd : ℚ) ≤ elapsed) ∨ (0 < mic ∧ mic < (icc : Int)))) ∧
    (∀ (elapsed : ℚ) (rd mic : Int) (icc : Nat), rd < 0 →
      (keepRunning elapsed rd mic icc = false ↔ (0 < mic ∧ mic < (icc : Int)))) ∧
    (∀ (elapsed : ℚ) (rd mic : Int) (icc : Nat), mic ≤ 0 →
      (keepRunning elapsed rd mic icc = false ↔ (0 ≤ rd ∧ (rd : ℚ) ≤ elapsed))) ∧
    (∀ (m : Nat) (rd : Int) (elapsedAt : Nat → ℚ) (out : Nat → CycleOutcome),
      0 < m → rd < 0 → (∀ j, j ≤ m → out j = .ok 0) →
      stopsAtCycle ⟨rd, (m : Int)⟩ ⟨elapsedAt, out⟩ (m + 1)) ∧
    (∀ (out : Nat → CycleOutcome) (p n : Nat), out p = .ok (n + 1) →
      idledAfter out (p + 1) = idledAfter out p) := by
  refine ⟨keepRunning_eq_false_iff, ?_, ?_, idle_budget_stop, ?_⟩
  · intro e rd mic icc hrd
    rw [keepRunning_eq_false_iff]
    constructor
    · rintro (⟨h0, _⟩ | h)
      · exact absurd hrd (not_lt.mpr h0)
      · exact h
    · exact Or.inr
  · intro e rd mic icc hmic
    rw [keepRunning_eq_false_iff]
    constructor
    · rintro (h | ⟨h0, _⟩)
      · exact h
      · exact absurd h0 (not_lt.mpr hmic)
    · exact Or.inl
  · intro out p n h
    simp [idledAfter, h]

/-- Witness for C1: with `max_idled_cycle = 2`, unbounded duration, and
all-idle cycles, the loop stops exactly after cycle 3. -/
theorem claim_C1_witness :
    stopsAtCycle ⟨-1, (2 : Int)⟩ ⟨fun _ => 0, fun _ => CycleOutcome.ok 0⟩ (2 + 1) :=
  claim_C1_keep_running.2.2.2.1 2 (-1) (fun _ => 0) (fun _ => CycleOutcome.ok 0)
    (by decide) (by decide) (fun _ _ => rfl)

/-- C2 counterexample: a cycle whose `_run_once()` raises does NOT increase
`idled_cycle_count` — the `else` clause of the `try` is skipped, so the
count stays at 0 rather than becoming 1. -/
theorem claim_C2_counterexample :
    ¬ (idledAfter (fun _ => CycleOutcome.exc) 1 =
        idledAfter (fun _ => CycleOutcome.exc) 0 + 1) := by
  decide

/-- C2 (amended): an unhandled exception in `_run_once` is caught and logged
(the caught-exception count increases by one), the loop proceeds to the next
continuation check exactly as before (never propagating), but
`idled_cycle_count` is left unchanged — the failed cycle does not count
toward the idle budget. -/
theorem claim_C2_exception_cycle (out : Nat → CycleOutcome) (k : Nat)
    (h : out k = CycleOutcome.exc) :
    idledAfter out (k + 1) = idledAfter out k ∧
    caughtAfter out (k + 1) = caughtAfter out k + 1 ∧
    (∀ (cfg : WorkerCfg) (elapsedAt : Nat → ℚ),
      keepAt cfg ⟨elapsedAt, out⟩ (k + 1) =
        keepRunning (elapsedAt (k + 1)) cfg.runDuration cfg.maxIdledCycle
          (idledAfter out k)) := by
  refine ⟨by simp [idledAfter, h], by simp [caughtAfter, h], ?_⟩
  intro cfg elapsedAt
  show keepRunning _ _ _ (idledAfter out (k + 1)) = _
  rw [show idledAfter out (k + 1) = idledAfter out k from by simp [idledAfter, h]]

/-- Witness for C2 (amended) at a concrete all-raising trace. -/
theorem claim_C2_witness :
    idledAfter (fun _ => CycleOutcome.exc) 1 = idledAfter (fun _ => CycleOutcome.exc) 0 ∧
    caughtAfter (fun _ => CycleOutcome.exc) 1 = caughtAfter (fun _ => CycleOutcome.exc) 0 + 1 ∧
    (∀ (cfg : WorkerCfg) (elapsedAt : Nat → ℚ),
      keepAt cfg ⟨elapsedAt, fun _ => CycleOutcome.exc⟩ 1 =
        keepRunning (elapsedAt 1) cfg.runDuration cfg.maxIdledCycle
          (idledAfter (fun _ => CycleOutcome.exc) 0)) :=
  claim_C2_exception_cycle (fun _ => CycleOutcome.exc) 0 rfl

/-- C10: a worker whose steps are all plain functions gets a processed-job
count of 0 from `_run_once` (only table steps with dict-returning populate
contribute), so with `max_idled_cycle = m > 0` and unbounded duration the
loop stops after exactly `m + 1` cycles even when every function succeeds. -/
theorem claim_C10_function_steps_idle :
    (∀ outs : List StepOutcome,
      (∀ o ∈ outs, ∃ r, o = StepOutcome.funcStep r) → runOnceCount outs = 0) ∧
    (∀ rest r, runOnceCount (StepOutcome.funcStep r :: rest) = runOnceCount rest) ∧
    (∀ rest, runOnceCount (StepOutcome.djTable PopStatus.nonDict :: rest) =
      runOnceCount rest) ∧
    (∀ rest s e, runOnceCount (StepOutcome.djTable (PopStatus.dict s e) :: rest) =
      s + e + runOnceCount rest) ∧
    (∀ (m : Nat) (rd : Int) (elapsedAt : Nat → ℚ)
        (stepOuts : Nat → List StepOutcome),
      0 < m → rd < 0 →
      (∀ k, ∀ o ∈ stepOuts k, ∃ r, o = StepOutcome.funcStep r) →
      stopsAtCycle ⟨rd, (m : Int)⟩
        ⟨elapsedAt, fun k => CycleOutcome.ok (runOnceCount (stepOuts k))⟩ (m + 1)) := by
  refine ⟨runOnceCount_all_func, fun _ _ => rfl, fun _ => rfl, fun _ _ _ => rfl, ?_⟩
  intro m rd elapsedAt stepOuts hm hrd hfunc
  exact idle_budget_stop m rd elapsedAt _ hm hrd
    (fun j _ => by rw [runOnceCount_all_func (stepOuts j) (hfunc j)])

/-- Witness for C10: one function step per cycle, `max_idled_cycle = 1`,
stop after 2 cycles. -/
theorem claim_C10_witness :
    stopsAtCycle ⟨-1, (1 : Int)⟩
      ⟨fun _ => 0,
       fun _ => CycleOutcome.ok (runOnceCount [StepOutcome.funcStep (some "boom")])⟩
      (1 + 1) :=
  claim_C10_function_steps_idle.2.2.2.2 1 (-1) (fun _ => 0)
    (fun _ => [StepOutcome.funcStep (some "boom")]) (by decide) (by decide)
    (fun _ o ho => ⟨some "boom", List.mem_singleton.mp ho⟩)

/-! ### Stale reserved-job reclamation: `handle_stale_reserved_jobs` -/

/-- Status of a row of the external job queue. -/
inductive JobStatus
  | reserved
  | error
  | ignore
  deriving DecidableEq

/-- One row of the job queue, with `elapsed_hours` the value of
`TIMESTAMPDIFF(HOUR, timestamp, NOW())` at call time. -/
structure JobRow where
  tableName : String
  keyHash : String
  status : JobStatus
  elapsedHours : Int
  connectionId : Nat
  errorMessage : String
  deriving DecidableEq

def staleMessage : String :=
  "Stale reserved job (process crashed or terminated without error)"

/-- The selector built by `handle_stale_reserved_jobs`: status reserved and
`elapsed_hours > stale_timeout_hours`, refined by
`connection_id NOT IN (...)` only when the fetched live-connection list is
non-empty (`if current_connections:` in the source). -/
def isStaleJob (staleTimeoutHours : Int) (liveConnections : List Nat)
    (r : JobRow) : Bool :=
  (r.status == JobStatus.reserved && decide (staleTimeoutHours < r.elapsedHours)) &&
    (if liveConnections.isEmpty then true
     else !(liveConnections.contains r.connectionId))

/-- The spec's stale condition, stated directly: reserved AND elapsed time
beyond the threshold AND owning connection absent from the live set. -/
def staleSpec (staleTimeoutHours : Int) (liveConnections : List Nat)
    (r : JobRow) : Bool :=
  (r.status == JobStatus.reserved && decide (staleTimeoutHours < r.elapsedHours)) &&
    !(decide (r.connectionId ∈ liveConnections))

/-- `jobs.error(table_name, key, error_message)` on a selected stale row:
reclassify to error status with the stale message. -/
def markStale (r : JobRow) : JobRow :=
  { r with status := JobStatus.error, errorMessage := staleMessage }

/-- `handle_stale_reserved_jobs(pipeline_module, stale_timeout_hours, action)`.
Result: the job table after the call and the returned selector (`some` rows
only in inspection mode, mirroring the Python return value of `None` for the
mutating actions). An unknown action string raises `ValueError`. -/
def handle_stale_reserved_jobs (jobs : List JobRow) (staleTimeoutHours : Int)
    (liveConnections : List Nat) (action : Option String) :
    Except String (List JobRow × Option (List JobRow)) :=
  if staleTimeoutHours ≤ 0 then
    .ok (jobs, if action.isSome then none else some [])
  else
    match action with
    | none =>
        .ok (jobs, some (jobs.filter (isStaleJob staleTimeoutHours liveConnections)))
    | some "remove" =>
        .ok (jobs.filter (fun r => !(isStaleJob staleTimeoutHours liveConnections r)),
          none)
    | some "error" =>
        .ok (jobs.map (fun r =>
          if isStaleJob staleTimeoutHours liveConnections r then markStale r else r),
          none)
    | some other => .error ("Invalid action: " ++ other)

/-- The code's conditional NOT-IN filter coincides with the spec's
"absent from the live set" condition (vacuously true for an empty set). -/
theorem isStaleJob_eq_staleSpec (T : Int) (live : List Nat) (r : JobRow) :
    isStaleJob T live r = staleSpec T live r := by
  cases live with
  | nil => simp [isStaleJob, staleSpec]
  | cons c cs => simp [isStaleJob, staleSpec, List.contains]

/-- C3: with `stale_timeout_hours = T > 0`, the selected rows are exactly
the reserved rows with elapsed hours beyond `T` whose connection is not
live; action "error" reclassifies exactly those, "remove" deletes exactly
those, rows failing any one condition are untouched; with `T <= 0` nothing
is mutated and inspection mode yields an empty selector. -/
theorem claim_C3_stale_reclamation :
    (∀ (T : Int) (live : List Nat) (r : JobRow),
      staleSpec T live r = true ↔
        (r.status = JobStatus.reserved ∧ T < r.elapsedHours ∧ r.connectionId ∉ live)) ∧
    (∀ jobs (T : Int) live, 0 < T →
      handle_stale_reserved_jobs jobs T live none =
        .ok (jobs, some (jobs.filter (staleSpec T live)))) ∧
    (∀ jobs (T : Int) live, 0 < T →
      handle_stale_reserved_jobs jobs T live (some "error") =
        .ok (jobs.map (fun r => if staleSpec T live r then markStale r else r), none)) ∧
    (∀ jobs (T : Int) live, 0 < T →
      handle_stale_reserved_jobs jobs T live (some "remove") =
        .ok (jobs.filter (fun r => !(staleSpec T live r)), none)) ∧
    (∀ (T : Int) (live : List Nat) (r : JobRow),
      (r.status ≠ JobStatus.reserved ∨ r.elapsedHours ≤ T ∨ r.connectionId ∈ live) →
      staleSpec T live r = false ∧
        (if staleSpec T live r then markStale r else r) = r) ∧
    (∀ jobs (T : Int) live (action : Option String), T ≤ 0 →
      handle_stale_reserved_jobs jobs T live action =
        .ok (jobs, if action.isSome then none else some [])) := by
  have hspec : ∀ (T : Int) (live : List Nat) (r : JobRow),
      staleSpec T live r = true ↔
        (r.status = JobStatus.reserved ∧ T < r.elapsedHours ∧ r.connectionId ∉ live) := by
    intro T live r
    simp [staleSpec, and_assoc]
  have hcongr : ∀ (T : Int) (live : List Nat),
      (isStaleJob T live) = (staleSpec T live) :=
    fun T live => funext (isStaleJob_eq_staleSpec T live)
  refine ⟨hspec, ?_, ?_, ?_, ?_, ?_⟩
  · intro jobs T live hT
    rw [handle_stale_reserved_jobs.eq_def, if_neg (not_le.mpr hT), hcongr]
  · intro jobs T live hT
    rw [handle_stale_reserved_jobs.eq_def, if_neg (not_le.mpr hT), hcongr]
    rfl
  · intro jobs T live hT
    rw [handle_stale_reserved_jobs.eq_def, if_neg (not_le.mpr hT), hcongr]
    rfl
  · intro T live r hr
    have hfalse : staleSpec T live r = false := by
      rcases Bool.eq_false_or_eq_true (staleSpec T live r) with ht | hf
      · exfalso
        rcases (hspec T live r).mp ht with ⟨h1, h2, h3⟩
        rcases hr with h | h | h
        · exact h h1
        · exact absurd h2 (not_lt.mpr h)
        · exact h3 h
      · exact hf
    exact ⟨hfalse, by rw [hfalse]; rfl⟩
  · intro jobs T live action hT
    rw [handle_stale_reserved_jobs.eq_def, if_pos hT]

/-- Witness for C3 at a concrete queue: one genuinely stale row, one
still-live row, one too-recent row. -/
theorem claim_C3_witness :
    (staleSpec 24 [7] ⟨"t", "k1", JobStatus.reserved, 25, 3, ""⟩ = true ↔
      (JobStatus.reserved = JobStatus.reserved ∧ (24 : Int) < 25 ∧ 3 ∉ [7])) ∧
    handle_stale_reserved_jobs
        [⟨"t", "k1", JobStatus.reserved, 25, 3, ""⟩,
         ⟨"t", "k2", JobStatus.reserved, 25, 7, ""⟩,
         ⟨"t", "k3", JobStatus.reserved, 23, 3, ""⟩] 24 [7] (some "error") =
      .ok ([markStale ⟨"t", "k1", JobStatus.reserved, 25, 3, ""⟩,
            ⟨"t", "k2", JobStatus.reserved, 25, 7, ""⟩,
            ⟨"t", "k3", JobStatus.reserved, 23, 3, ""⟩], none) ∧
    handle_stale_reserved_jobs [⟨"t", "k1", JobStatus.reserved, 25, 3, ""⟩] 0 [7]
        (some "error") =
      .ok ([⟨"t", "k1", JobStatus.reserved, 25, 3, ""⟩], none) := by
  refine ⟨claim_C3_stale_reclamation.1 24 [7] _, ?_, ?_⟩
  · rw [claim_C3_stale_reclamation.2.2.1 _ 24 [7] (by decide)]
    rfl
  · rw [claim_C3_stale_reclamation.2.2.2.2.2 _ 0 [7] (some "error") (by decide)]
    rfl

/-! ### Ledger pruning: `WorkerLog.delete_old_logs` / `ErrorLog.delete_old_logs` -/

/-- `delete_old_logs(cutoff_days)`: rows are (payload, elapsed_days) pairs
with `elapsed_days = TIMESTAMPDIFF(DAY, timestamp, utcnow)`. `old_jobs`
selects `elapsed_days > cutoff_days`; `if old_jobs:` then exactly those rows
are deleted (the try/except around `delete_quick` only swallows database
operational errors, not modelled). -/
def delete_old_logs (rows : List (String × Int)) (cutoffDays : Int) :
    List (String × Int) :=
  let oldJobs := rows.filter (fun r => decide (cutoffDays < r.2))
  if oldJobs.isEmpty then rows
  else rows.filter (fun r => !(decide (cutoffDays < r.2)))

/-- C7 counterexample: a ledger with a 40-day-old record and a 1-day-old
record. The newest record is well within the 30-day window, yet the code
does delete the old record — pruning is not skipped. -/
theorem claim_C7_counterexample :
    ((1 : Int) ≤ 30) ∧
    delete_old_logs [("old", 40), ("new", 1)] 30 ≠ [("old", 40), ("new", 1)] := by
  constructor
  · decide
  · decide

/-- C7 (amended): per-cycle pruning deletes exactly the records older than
the cutoff whenever at least one such record exists; there is no
newest-record guard, so records older than the cutoff are deleted even
while the ledger is actively being written. -/
theorem claim_C7_prune_per_row (rows : List (String × Int)) (cutoffDays : Int) :
    delete_old_logs rows cutoffDays =
      rows.filter (fun r => !(decide (cutoffDays < r.2))) := by
  unfold delete_old_logs
  by_cases h : (rows.filter (fun r => decide (cutoffDays < r.2))).isEmpty
  · rw [if_pos h]
    have hnil : rows.filter (fun r => decide (cutoffDays < r.2)) = [] :=
      List.isEmpty_iff.mp h
    symm
    rw [List.filter_eq_self]
    intro a ha
    by_contra hne
    have hmem : a ∈ rows.filter (fun r => decide (cutoffDays < r.2)) :=
      List.mem_filter.mpr ⟨ha, by simpa using hne⟩
    rw [hnil] at hmem
    exact absurd hmem (List.not_mem_nil a)
  · rw [if_neg h]

/-! ### ErrorLog upsert: `log_error_job` / `log_exception` -/

/-- One row of the `~error_log` table. `process`/`keyHash` form the primary
key; all remaining attributes (timestamp, key, message, stack, host, user,
pid) are collapsed into `payload` — the upsert treats them opaquely. -/
structure ErrorEntry where
  process : String
  keyHash : String
  payload : String
  deriving DecidableEq

/-- The restriction `cls & dict(process=..., key_hash=...)`. -/
def errorKeyMatches (process keyHash : String) (r : ErrorEntry) : Bool :=
  r.process == process && r.keyHash == keyHash

/-- The common tail of `ErrorLog.log_error_job` and `ErrorLog.log_exception`:
`if cls & key: cls.update1(entry) else: cls.insert1(entry)` — update the
row holding this primary key in place if present, else append. -/
def errorLogUpsert (tbl : List ErrorEntry) (e : ErrorEntry) : List ErrorEntry :=
  if tbl.any (errorKeyMatches e.process e.keyHash) then
    tbl.map (fun r => if errorKeyMatches e.process e.keyHash r then e else r)
  else tbl ++ [e]

/-- Table invariant: at most one row per (process, key_hash) primary key. -/
def AtMostOnePerKey (tbl : List ErrorEntry) : Prop :=
  ∀ p kh, (tbl.filter (errorKeyMatches p kh)).length ≤ 1

theorem errorKeyMatches_self (e : ErrorEntry) :
    errorKeyMatches e.process e.keyHash e = true := by
  simp [errorKeyMatches]

theorem errorKeyMatches_of_matches {p kh : String} {r : ErrorEntry}
    (h : errorKeyMatches p kh r = true) : r.process = p ∧ r.keyHash = kh := by
  simpa [errorKeyMatches] using h

/-- Updating rows matching `e`'s key to `e` and filtering by that key yields
one copy of `e` per previously matching row. -/
theorem filter_map_update (tbl : List ErrorEntry) (e : ErrorEntry) :
    ((tbl.map (fun r => if errorKeyMatches e.process e.keyHash r then e else r)).filter
        (errorKeyMatches e.process e.keyHash)) =
      List.replicate ((tbl.filter (errorKeyMatches e.process e.keyHash)).length) e := by
  induction tbl with
  | nil => rfl
  | cons r rest ih =>
    by_cases h : errorKeyMatches e.process e.keyHash r = true
    · simp [h, ih, errorKeyMatches_self e, List.replicate_succ]
    · rw [Bool.not_eq_true] at h
      simp [h, ih]

/-- Filtering by a different primary key is unaffected by the update. -/
theorem filter_map_update_other (tbl : List ErrorEntry) (e : ErrorEntry)
    (p kh : String) (hne : ¬(e.process = p ∧ e.keyHash = kh)) :
    ((tbl.map (fun r => if errorKeyMatches e.process e.keyHash r then e else r)).filter
        (errorKeyMatches p kh)) = tbl.filter (errorKeyMatches p kh) := by
  have hef : errorKeyMatches p kh e = false := by
    rcases Bool.eq_false_or_eq_true (errorKeyMatches p kh e) with ht | hf
    · exact absurd (errorKeyMatches_of_matches ht) hne
    · exact hf
  induction tbl with
  | nil => rfl
  | cons r rest ih =>
    by_cases h : errorKeyMatches e.process e.keyHash r = true
    · have hrf : errorKeyMatches p kh r = false := by
        rcases errorKeyMatches_of_matches h with ⟨h1, h2⟩
        rcases Bool.eq_false_or_eq_true (errorKeyMatches p kh r) with ht | hf
        · rcases errorKeyMatches_of_matches ht with ⟨h1', h2'⟩
          exact absurd ⟨h1 ▸ h1', h2 ▸ h2'⟩ hne
        · exact hf
      simp [h, hef, hrf, ih]
    · rw [Bool.not_eq_true] at h
      simp [h, ih, List.filter_cons]

/-- No row of the table matches the key when `any` says so. -/
theorem filter_eq_nil_of_any_false (tbl : List ErrorEntry) (p kh : String)
    (h : tbl.any (errorKeyMatches p kh) = false) :
    tbl.filter (errorKeyMatches p kh) = [] := by
  induction tbl with
  | nil => rfl
  | cons r rest ih =>
    simp only [List.any_cons, Bool.or_eq_false_iff] at h
    rw [List.filter_cons, h.1]
    simpa using ih (by simpa using h.2)

/-- After an upsert, exactly one row holds the upserted key, and it is the
upserted entry. -/
theorem errorLogUpsert_filter_self (tbl : List ErrorEntry) (e : ErrorEntry)
    (h : (tbl.filter (errorKeyMatches e.process e.keyHash)).length ≤ 1) :
    (errorLogUpsert tbl e).filter (errorKeyMatches e.process e.keyHash) = [e] := by
  unfold errorLogUpsert
  by_cases hany : tbl.any (errorKeyMatches e.process e.keyHash) = true
  · rw [if_pos hany, filter_map_update]
    rcases List.any_eq_true.mp hany with ⟨r, hr, hmatch⟩
    have hpos : 0 < (tbl.filter (errorKeyMatches e.process e.keyHash)).length :=
      List.length_pos.mpr (by
        intro hnil
        exact absurd (List.mem_filter.mpr ⟨hr, hmatch⟩) (by rw [hnil]; exact List.not_mem_nil r))
    have : (tbl.filter (errorKeyMatches e.process e.keyHash)).length = 1 :=
      le_antisymm h hpos
    rw [this]
    rfl
  · rw [if_neg hany, List.filter_append,
      filter_eq_nil_of_any_false tbl _ _ (by simpa using hany)]
    simp [errorKeyMatches_self e]

/-- Upserting preserves the at-most-one-row-per-key invariant. -/
theorem errorLogUpsert_preserves (tbl : List ErrorEntry) (e : ErrorEntry)
    (h : AtMostOnePerKey tbl) : AtMostOnePerKey (errorLogUpsert tbl e) := by
  intro p kh
  by_cases hkey : e.process = p ∧ e.keyHash = kh
  · rcases hkey with ⟨h1, h2⟩
    subst h1; subst h2
    rw [errorLogUpsert_filter_self tbl e (h _ _)]
    simp
  · unfold errorLogUpsert
    by_cases hany : tbl.any (errorKeyMatches e.process e.keyHash) = true
    · rw [if_pos hany, filter_map_update_other tbl e p kh hkey]
      exact h p kh
    · rw [if_neg hany, List.filter_append]
      have hef : errorKeyMatches p kh e = false := by
        rcases Bool.eq_false_or_eq_true (errorKeyMatches p kh e) with ht | hf
        · exact absurd (errorKeyMatches_of_matches ht) hkey
        · exact hf
      rw [List.filter_cons, hef]
      simpa using h p kh

/-- Upserting an already-present key leaves the row count unchanged. -/
theorem errorLogUpsert_length_of_present (tbl : List ErrorEntry) (e : ErrorEntry)
    (hany : tbl.any (errorKeyMatches e.process e.keyHash) = true) :
    (errorLogUpsert tbl e).length = tbl.length := by
  unfold errorLogUpsert
  rw [if_pos hany, List.length_map]

/-- C9: logging two errors with the same (process, key hash) updates in
place: the second call does not grow the table, afterwards exactly one row
holds that key and it is the second (last) entry, and the
one-row-per-key invariant is preserved. -/
theorem claim_C9_error_upsert (tbl : List ErrorEntry) (e1 e2 : ErrorEntry)
    (hp : e1.process = e2.process) (hk : e1.keyHash = e2.keyHash)
    (h : AtMostOnePerKey tbl) :
    ((errorLogUpsert (errorLogUpsert tbl e1) e2).filter
        (errorKeyMatches e2.process e2.keyHash) = [e2]) ∧
    (errorLogUpsert (errorLogUpsert tbl e1) e2).length
      = (errorLogUpsert tbl e1).length ∧
    AtMostOnePerKey (errorLogUpsert (errorLogUpsert tbl e1) e2) := by
  have h1 : AtMostOnePerKey (errorLogUpsert tbl e1) := errorLogUpsert_preserves tbl e1 h
  have he1 : (errorLogUpsert tbl e1).filter (errorKeyMatches e1.process e1.keyHash) = [e1] :=
    errorLogUpsert_filter_self tbl e1 (h _ _)
  have hmem : e1 ∈ errorLogUpsert tbl e1 := by
    have : e1 ∈ (errorLogUpsert tbl e1).filter (errorKeyMatches e1.process e1.keyHash) := by
      rw [he1]; exact List.mem_singleton_self e1
    exact (List.mem_filter.mp this).1
  have hany : (errorLogUpsert tbl e1).any (errorKeyMatches e2.process e2.keyHash) = true :=
    List.any_eq_true.mpr ⟨e1, hmem, by rw [← hp, ← hk]; exact errorKeyMatches_self e1⟩
  exact ⟨errorLogUpsert_filter_self _ e2 (h1 _ _),
    errorLogUpsert_length_of_present _ e2 hany,
    errorLogUpsert_preserves _ e2 h1⟩

/-- Witness for C9: two failures of the same job key logged into an empty
ledger leave one row, holding the second failure. -/
theorem claim_C9_witness :
    ((errorLogUpsert (errorLogUpsert [] ⟨"p", "h1", "first"⟩) ⟨"p", "h1", "second"⟩).filter
        (errorKeyMatches "p" "h1") = [⟨"p", "h1", "second"⟩]) ∧
    (errorLogUpsert (errorLogUpsert [] ⟨"p", "h1", "first"⟩) ⟨"p", "h1", "second"⟩).length
      = (errorLogUpsert [] ⟨"p", "h1", "first"⟩).length ∧
    AtMostOnePerKey
      (errorLogUpsert (errorLogUpsert [] ⟨"p", "h1", "first"⟩) ⟨"p", "h1", "second"⟩) :=
  claim_C9_error_upsert [] ⟨"p", "h1", "first"⟩ ⟨"p", "h1", "second"⟩ rfl rfl
    (fun p kh => by simp)

/-! ### `log_exception` and the function-step except branch of `_run_once` -/

/-- A Python exception as the worker sees it: class name, `str()` rendering,
and the optional duck-typed `key` dict attribute. -/
structure PyExc where
  className : String
  msgStr : String
  keyAttr : Option (List (String × String))

/-- A Python object passed as the `error` parameter of `log_exception`:
either an exception instance or a plain `str` (which is what `_run_once`
actually passes). -/
inductive PyVal
  | pystr (s : String)
  | pyexc (e : PyExc)

/-- `error.__class__.__name__`. -/
def pyClassName : PyVal → String
  | .pystr _ => "str"
  | .pyexc e => e.className

/-- `str(error)`. -/
def pyStr : PyVal → String
  | .pystr s => s
  | .pyexc e => e.msgStr

/-- `error_message` as built by `ErrorLog.log_exception`:
`exception=error.__class__.__name__` and `msg=": " + str(error)` when
`str(error)` is non-empty. -/
def logExceptionMessage (error : PyVal) : String :=
  pyClassName error ++ (if pyStr error = "" then "" else ": " ++ pyStr error)

/-- The C6-relevant fields of the entry built by `ErrorLog.log_exception`. -/
structure ExcLogEntry where
  process : String
  key : List (String × String)
  errorMessage : String
  deriving DecidableEq

def log_exception (processName : String) (key : List (String × String))
    (error : PyVal) : ExcLogEntry :=
  { process := processName, key := key, errorMessage := logExceptionMessage error }

/-- The `except` branch of the function-step case of `_run_once`: the key is
the exception's dict-valued `key` attribute when present, else the fresh
single-field `dict(error_time=datetime.utcnow())`; then
`ErrorLog.log_exception(key, process, str(e))` — the third argument is the
string `str(e)`, not the exception `e` itself. -/
def runOnceFunctionExceptBranch (processName : String) (nowStr : String)
    (e : PyExc) : ExcLogEntry :=
  let key := match e.keyAttr with
    | some k => k
    | none => [("error_time", nowStr)]
  log_exception processName key (PyVal.pystr (pyStr (PyVal.pyexc e)))

/-- Does the string start with the given character sequence? -/
def startsWithChars : List Char → List Char → Bool
  | [], _ => true
  | _ :: _, [] => false
  | p :: ps, c :: cs => p == c && startsWithChars ps cs

/-- Does `pat` occur as a contiguous subsequence of the second list? -/
def hasInfixChars (pat : List Char) : List Char → Bool
  | [] => startsWithChars pat []
  | c :: cs => startsWithChars pat (c :: cs) || hasInfixChars pat cs

/-- Substring test on strings. -/
def containsSubstr (s pat : String) : Bool := hasInfixChars pat.data s.data

/-- C6 (evaluation at the failing input): a function step raising
`ValueError("boom")` with no `key` attribute yields a record whose key is
the claimed single-field error-timestamp dict, but whose `error_message` is
`"str: boom"` — it does not contain `"ValueError: boom"`, because
`_run_once` passes `str(e)` instead of `e`, so
`error.__class__.__name__` is `"str"`. Had `log_exception` received the
exception object itself, it would have produced `"ValueError: boom"`
(last conjunct), which is the documented intent. -/
theorem claim_C6_code_bug_eval :
    (runOnceFunctionExceptBranch "my_func" "2026-10-12 00:00:00"
        ⟨"ValueError", "boom", none⟩).errorMessage = "str: boom" ∧
    containsSubstr
      (runOnceFunctionExceptBranch "my_func" "2026-10-12 00:00:00"
        ⟨"ValueError", "boom", none⟩).errorMessage "ValueError: boom" = false ∧
    (runOnceFunctionExceptBranch "my_func" "2026-10-12 00:00:00"
        ⟨"ValueError", "boom", none⟩).key = [("error_time", "2026-10-12 00:00:00")] ∧
    logExceptionMessage (PyVal.pyexc ⟨"ValueError", "boom", none⟩) = "ValueError: boom" := by
  refine ⟨by decide, by decide, by decide, by decide⟩

/-! ### Worker registration: `register_worker`

The process entry dict is
`{"worker_name": .., "process": .., "process_index": .., "full_table_name": ..,
"key_source_sql": .., "process_kwargs": ..}` fingerprinted by `dict_to_uuid`
(the `process_config_uuid` field is assigned from the hash of the other six
fields); the worker fingerprint is `dict_to_uuid` of
`{e["process_index"]: e["process_config_uuid"] for e in process_entries}`.
`RegisteredWorker` rows are keyed by `worker_name` with a part table
`Process`; registration deletes any old row for the worker name and inserts
the new rows inside one transaction, modelled as a single state transition. -/

/-- The per-step data entering the registration fingerprint, already
`str()`-rendered: process name, full table name (empty for functions),
`key_source` SQL (None for functions), and the kwargs dict rendering. -/
structure StepSpec where
  processName : String
  fullTableName : String
  keySourceSql : Option String
  processKwargsStr : String
  deriving DecidableEq

/-- Python `str()` of an optional value (`None` renders as "None"). -/
def pyOptStr : Option String → String
  | some s => s
  | none => "None"

/-- The entry dict built for one step by `register_worker`, as the
(key, str(value)) items fed to `dict_to_uuid`. -/
def processEntryDict (workerName : String) (index : Nat) (s : StepSpec) :
    List (String × String) :=
  [("worker_name", workerName), ("process", s.processName),
   ("process_index", toString index), ("full_table_name", s.fullTableName),
   ("key_source_sql", pyOptStr s.keySourceSql),
   ("process_kwargs", s.processKwargsStr)]

/-- `entry["process_config_uuid"] = dict_to_uuid(entry)`. The digest output
is rendered as a string (UUIDs render injectively). -/
def process_config_uuid (digest : List Char → String) (workerName : String)
    (index : Nat) (s : StepSpec) : String :=
  digest (serializeItems (processEntryDict workerName index s))

/-- The `{index: process_config_uuid}` items produced by enumerating the
step list from a given starting index (`enumerate` in the source starts
at 0). -/
def workerEntriesFrom (digest : List Char → String) (workerName : String) :
    Nat → List StepSpec → List (Nat × String)
  | _, [] => []
  | n, s :: rest =>
    (n, process_config_uuid digest workerName n s) ::
      workerEntriesFrom digest workerName (n + 1) rest

/-- The digest stream for an integer-keyed dict: `str(k)` then `str(v)` for
the items in Python sorted order. -/
def serializeIndexItems (m : List (Nat × String)) : List Char :=
  (List.insertionSort lexLe m).foldr
    (fun kv acc => (toString kv.1).data ++ (kv.2.data ++ acc)) []

/-- `worker_config_uuid = dict_to_uuid({e["process_index"]:
e["process_config_uuid"] for e in process_entries})`. -/
def worker_config_uuid (digest : List Char → String) (workerName : String)
    (steps : List StepSpec) : String :=
  digest (serializeIndexItems (workerEntriesFrom digest workerName 0 steps))

/-- One row of the `RegisteredWorker` table (primary key `worker_name`,
unique index `(worker_name, worker_config_uuid)`). -/
structure RegisteredWorkerRow where
  workerName : String
  workerConfigUuid : String
  deriving DecidableEq

/-- One row of the `RegisteredWorker.Process` part table (key
`(worker_name, process_index)`; the payload is collapsed into the process
config fingerprint). -/
structure RegisteredProcessRow where
  workerName : String
  processIndex : Nat
  processConfigUuid : String
  deriving DecidableEq

/-- The registration tables. -/
structure RegState where
  workers : List RegisteredWorkerRow
  procs : List RegisteredProcessRow
  deriving DecidableEq

/-- `DataJointWorker.register_worker`. Returns the `_is_registered` flag and
the table state after the call. Early return when the flag is already set;
early return (flag untouched) when a row with this
`(worker_name, worker_config_uuid)` already exists; otherwise one
transaction deletes every row of this worker (part rows cascade) and
inserts the new worker row and all its process rows. -/
def register_worker (digest : List Char → String) (workerName : String)
    (steps : List StepSpec) (isRegistered : Bool) (st : RegState) :
    Bool × RegState :=
  if isRegistered then (true, st)
  else
    let wUuid := worker_config_uuid digest workerName steps
    if st.workers.any (fun r => r.workerName == workerName && r.workerConfigUuid == wUuid) then
      (false, st)
    else
      (true,
        ⟨st.workers.filter (fun r => !(r.workerName == workerName)) ++ [⟨workerName, wUuid⟩],
         st.procs.filter (fun r => !(r.workerName == workerName)) ++
           (workerEntriesFrom digest workerName 0 steps).map (fun kv => ⟨workerName, kv.1, kv.2⟩)⟩)

/-- The `RegisteredWorker` rows of one worker. -/
def workerRowsFor (st : RegState) (workerName : String) : List RegisteredWorkerRow :=
  st.workers.filter (fun r => r.workerName == workerName)

/-- The `Process` rows of one worker. -/
def procRowsFor (st : RegState) (workerName : String) : List RegisteredProcessRow :=
  st.procs.filter (fun r => r.workerName == workerName)

/-- Keys strictly below force the pair order regardless of values. -/
theorem lexLe_keys {α β : Type} [LinearOrder α] [LinearOrder β]
    {k1 k2 : α} {v1 v2 : β} (h : k1 < k2) : lexLe (k1, v1) (k2, v2) :=
  Or.inl h

/-- Keys strictly above refute the pair order regardless of values. -/
theorem not_lexLe_keys {α β : Type} [LinearOrder α] [LinearOrder β]
    {k1 k2 : α} {v1 v2 : β} (h : k2 < k1) : ¬ lexLe (k1, v1) (k2, v2) := by
  rintro (h2 | ⟨he, _⟩)
  · exact absurd (h.trans h2) (lt_irrefl _)
  · have he' : k1 = k2 := he
    rw [he'] at h
    exact absurd h (lt_irrefl _)

/-- The character stream hashed for a process entry, written out: the six
fixed keys in their Python sorted order interleaved with the `str()`
values. -/
theorem serialize_processEntryDict (workerName : String) (index : Nat) (s : StepSpec) :
    serializeItems (processEntryDict workerName index s) =
      "full_table_name".data ++ (s.fullTableName.data ++
      ("key_source_sql".data ++ ((pyOptStr s.keySourceSql).data ++
      ("process".data ++ (s.processName.data ++
      ("process_index".data ++ ((toString index).data ++
      ("process_kwargs".data ++ (s.processKwargsStr.data ++
      ("worker_name".data ++ (workerName.data ++ []))))))))))) := by
  have hDE : ("full_table_name" : String) < "key_source_sql" :=
    String.lt_iff_toList_lt.mpr (by decide)
  have hEF : ("key_source_sql" : String) < "process_kwargs" :=
    String.lt_iff_toList_lt.mpr (by decide)
  have hBC : ("process" : String) < "process_index" :=
    String.lt_iff_toList_lt.mpr (by decide)
  have hCF : ("process_index" : String) < "process_kwargs" :=
    String.lt_iff_toList_lt.mpr (by decide)
  have hDC : ("full_table_name" : String) < "process_index" :=
    String.lt_iff_toList_lt.mpr (by decide)
  have hEC : ("key_source_sql" : String) < "process_index" :=
    String.lt_iff_toList_lt.mpr (by decide)
  have hDB : ("full_table_name" : String) < "process" :=
    String.lt_iff_toList_lt.mpr (by decide)
  have hEB : ("key_source_sql" : String) < "process" :=
    String.lt_iff_toList_lt.mpr (by decide)
  have hDA : ("full_table_name" : String) < "worker_name" :=
    String.lt_iff_toList_lt.mpr (by decide)
  have hEA : ("key_source_sql" : String) < "worker_name" :=
    String.lt_iff_toList_lt.mpr (by decide)
  have hBA : ("process" : String) < "worker_name" :=
    String.lt_iff_toList_lt.mpr (by decide)
  have hCA : ("process_index" : String) < "worker_name" :=
    String.lt_iff_toList_lt.mpr (by decide)
  have hFA : ("process_kwargs" : String) < "worker_name" :=
    String.lt_iff_toList_lt.mpr (by decide)
  simp only [serializeItems, processEntryDict, List.insertionSort, List.orderedInsert,
    lexLe_keys hEF, lexLe_keys hDE, lexLe_keys hBC, lexLe_keys hCF,
    not_lexLe_keys hDC, not_lexLe_keys hEC, not_lexLe_keys hDB, not_lexLe_keys hEB,
    not_lexLe_keys hDA, not_lexLe_keys hEA, not_lexLe_keys hBA, not_lexLe_keys hCA,
    not_lexLe_keys hFA, if_true, if_false, List.foldr]

/-- Strings with equal character data are equal. -/
theorem stringDataInj {a b : String} (h : a.data = b.data) : a = b := by
  cases a
  cases b
  exact congrArg String.mk (by simpa using h)

/-- Keys in the enumerated worker-entry list are at least the start index. -/
theorem mem_workerEntriesFrom_key (digest : List Char → String) (wn : String) :
    ∀ (steps : List StepSpec) (n : Nat) (kv : Nat × String),
      kv ∈ workerEntriesFrom digest wn n steps → n ≤ kv.1 := by
  intro steps
  induction steps with
  | nil =>
    intro n kv h
    cases h
  | cons s rest ih =>
    intro n kv h
    rcases List.mem_cons.mp h with rfl | h
    · exact le_refl n
    · exact le_trans (Nat.le_succ n) (ih (n + 1) kv h)

/-- The enumerated worker-entry list is sorted by its integer keys. -/
theorem sorted_workerEntriesFrom (digest : List Char → String) (wn : String) :
    ∀ (steps : List StepSpec) (n : Nat),
      List.Sorted lexLe (workerEntriesFrom digest wn n steps) := by
  intro steps
  induction steps with
  | nil =>
    intro n
    exact List.sorted_nil
  | cons s rest ih =>
    intro n
    rw [workerEntriesFrom, List.sorted_cons]
    refine ⟨fun kv hkv => Or.inl ?_, ih (n + 1)⟩
    exact Nat.lt_of_succ_le (mem_workerEntriesFrom_key digest wn rest (n + 1) kv hkv)

/-- The digest stream of a dict without the (here redundant) sorting pass. -/
def foldIndexStream (m : List (Nat × String)) : List Char :=
  m.foldr (fun kv acc => (toString kv.1).data ++ (kv.2.data ++ acc)) []

theorem serializeIndexItems_sorted (m : List (Nat × String))
    (h : List.Sorted lexLe m) : serializeIndexItems m = foldIndexStream m := by
  unfold serializeIndexItems foldIndexStream
  rw [List.Sorted.insertionSort_eq h]

theorem foldIndexStream_foldr (m : List (Nat × String)) (X : List Char) :
    m.foldr (fun kv acc => (toString kv.1).data ++ (kv.2.data ++ acc)) X =
      foldIndexStream m ++ X := by
  induction m with
  | nil => simp [foldIndexStream]
  | cons kv rest ih =>
    simp only [List.foldr_cons, ih, foldIndexStream, List.append_assoc]

theorem foldIndexStream_append (a b : List (Nat × String)) :
    foldIndexStream (a ++ b) = foldIndexStream a ++ foldIndexStream b := by
  show (a ++ b).foldr _ [] = _
  rw [List.foldr_append]
  exact foldIndexStream_foldr a (foldIndexStream b)

theorem workerEntriesFrom_append (digest : List Char → String) (wn : String) :
    ∀ (pre post : List StepSpec) (n : Nat),
      workerEntriesFrom digest wn n (pre ++ post) =
        workerEntriesFrom digest wn n pre ++
          workerEntriesFrom digest wn (n + pre.length) post := by
  intro pre
  induction pre with
  | nil =>
    intro post n
    simp [workerEntriesFrom]
  | cons s rest ih =>
    intro post n
    simp only [List.cons_append, workerEntriesFrom, List.append_eq, List.length_cons,
      ih post (n + 1)]
    rw [show n + (rest.length + 1) = n + 1 + rest.length from by omega]

/-- Two steps identical except for their invocation-args rendering receive
different process fingerprints under an injective digest. -/
theorem process_config_uuid_ne (digest : List Char → String)
    (hinj : Function.Injective digest) (wn : String) (index : Nat)
    (s s' : StepSpec) (hn : s'.processName = s.processName)
    (hf : s'.fullTableName = s.fullTableName) (hk : s'.keySourceSql = s.keySourceSql)
    (hkw : s'.processKwargsStr ≠ s.processKwargsStr) :
    process_config_uuid digest wn index s' ≠ process_config_uuid digest wn index s := by
  intro he
  apply hkw
  have hs := hinj he
  rw [serialize_processEntryDict, serialize_processEntryDict, hn, hf, hk] at hs
  have h1 := List.append_cancel_left hs
  have h2 := List.append_cancel_left h1
  have h3 := List.append_cancel_left h2
  have h4 := List.append_cancel_left h3
  have h5 := List.append_cancel_left h4
  have h6 := List.append_cancel_left h5
  have h7 := List.append_cancel_left h6
  have h8 := List.append_cancel_left h7
  have h9 := List.append_cancel_left h8
  exact stringDataInj (List.append_cancel_right h9)

/-- Changing one step's invocation args changes the worker fingerprint
(digest injective). -/
theorem worker_config_uuid_ne (digest : List Char → String)
    (hinj : Function.Injective digest) (wn : String) (pre post : List StepSpec)
    (s s' : StepSpec) (hn : s'.processName = s.processName)
    (hf : s'.fullTableName = s.fullTableName) (hk : s'.keySourceSql = s.keySourceSql)
    (hkw : s'.processKwargsStr ≠ s.processKwargsStr) :
    worker_config_uuid digest wn (pre ++ s' :: post) ≠
      worker_config_uuid digest wn (pre ++ s :: post) := by
  intro he
  apply process_config_uuid_ne digest hinj wn (0 + pre.length) s s' hn hf hk hkw
  have hs := hinj he
  rw [serializeIndexItems_sorted _ (sorted_workerEntriesFrom digest wn _ 0),
    serializeIndexItems_sorted _ (sorted_workerEntriesFrom digest wn _ 0),
    workerEntriesFrom_append digest wn pre (s' :: post) 0,
    workerEntriesFrom_append digest wn pre (s :: post) 0,
    foldIndexStream_append, foldIndexStream_append] at hs
  have h1 := List.append_cancel_left hs
  rw [workerEntriesFrom, workerEntriesFrom] at h1
  simp only [foldIndexStream, List.foldr_cons] at h1
  have h2 := List.append_cancel_left h1
  exact stringDataInj (List.append_cancel_right h2)

/-- Filtering by a predicate after filtering by its negation is empty. -/
theorem filter_not_filter {α : Type} (p : α → Bool) (l : List α) :
    (l.filter (fun a => !(p a))).filter p = [] := by
  induction l with
  | nil => rfl
  | cons a l ih =>
    by_cases h : p a = true
    · simp [List.filter_cons, h, ih]
    · rw [Bool.not_eq_true] at h
      simp [List.filter_cons, h, ih]

/-- Delete-then-insert: the rows selected for a key after the transaction
are exactly the inserted rows (all carrying that key). -/
theorem filter_key_append_insert {α : Type} (key : α → String) (l m : List α)
    (wn : String) (hm : ∀ r ∈ m, key r = wn) :
    ((l.filter (fun r => !(key r == wn)) ++ m).filter (fun r => key r == wn)) = m := by
  rw [List.filter_append, filter_not_filter (fun r => key r == wn) l, List.nil_append]
  exact List.filter_eq_self.mpr (fun r hr => by simp [hm r hr])

/-- A list of length at most one containing an element is that singleton. -/
theorem length_le_one_mem_eq {α : Type} {l : List α} {x : α} (hlen : l.length ≤ 1)
    (hx : x ∈ l) : l = [x] := by
  cases l with
  | nil => cases hx
  | cons a t =>
    cases t with
    | nil =>
      have := List.mem_singleton.mp hx
      rw [this]
    | cons b u => simp at hlen

/-- `register_worker` with a matching fingerprint already present is a pure
no-op (one fingerprint-comparison read). -/
theorem register_of_mem (digest : List Char → String) (wn : String)
    (steps : List StepSpec) (st : RegState)
    (h : (⟨wn, worker_config_uuid digest wn steps⟩ : RegisteredWorkerRow) ∈ st.workers) :
    register_worker digest wn steps false st = (false, st) := by
  have hany : st.workers.any (fun r =>
      r.workerName == wn && r.workerConfigUuid == worker_config_uuid digest wn steps) = true :=
    List.any_eq_true.mpr ⟨_, h, by simp⟩
  simp [register_worker, hany]

/-- `register_worker` with no matching fingerprint performs the
delete-and-insert transaction. -/
theorem register_of_not_mem (digest : List Char → String) (wn : String)
    (steps : List StepSpec) (st : RegState)
    (h : (⟨wn, worker_config_uuid digest wn steps⟩ : RegisteredWorkerRow) ∉ st.workers) :
    register_worker digest wn steps false st =
      (true,
        ⟨st.workers.filter (fun r => !(r.workerName == wn)) ++
            [⟨wn, worker_config_uuid digest wn steps⟩],
         st.procs.filter (fun r => !(r.workerName == wn)) ++
           (workerEntriesFrom digest wn 0 steps).map (fun kv => ⟨wn, kv.1, kv.2⟩)⟩) := by
  have hany : st.workers.any (fun r =>
      r.workerName == wn && r.workerConfigUuid == worker_config_uuid digest wn steps) = false := by
    rcases Bool.eq_false_or_eq_true (st.workers.any (fun r =>
        r.workerName == wn && r.workerConfigUuid == worker_config_uuid digest wn steps))
      with ht | hf
    · exfalso
      rcases List.any_eq_true.mp ht with ⟨r, hr, hcond⟩
      simp only [Bool.and_eq_true] at hcond
      rcases hcond with ⟨h1, h2⟩
      have h1' : r.workerName = wn := by simpa using h1
      have h2' : r.workerConfigUuid = worker_config_uuid digest wn steps := by simpa using h2
      apply h
      have : r = ⟨wn, worker_config_uuid digest wn steps⟩ := by
        cases r
        simp only at h1' h2'
        rw [h1', h2']
      rw [← this]
      exact hr
    · exact hf
  simp [register_worker, hany]

/-- After a fresh `register_worker` call, the worker's rows are exactly one
row carrying the configuration fingerprint. -/
theorem register_first_rows (digest : List Char → String) (wn : String)
    (steps : List StepSpec) (st : RegState)
    (hlen : (workerRowsFor st wn).length ≤ 1) :
    workerRowsFor (register_worker digest wn steps false st).2 wn =
      [⟨wn, worker_config_uuid digest wn steps⟩] := by
  by_cases hmem : (⟨wn, worker_config_uuid digest wn steps⟩ : RegisteredWorkerRow) ∈ st.workers
  · rw [register_of_mem digest wn steps st hmem]
    exact length_le_one_mem_eq hlen (List.mem_filter.mpr ⟨hmem, by simp⟩)
  · rw [register_of_not_mem digest wn steps st hmem]
    exact filter_key_append_insert _ _ _ _
      (fun r hr => by rw [List.mem_singleton.mp hr])

/-- C4: registering twice with an unchanged step list leaves exactly one
RegisteredWorker row and the second call is a no-op; changing one step's
invocation args changes the worker fingerprint (injective digest); and
re-registering a changed configuration atomically replaces the old
registration with the new worker row and all its process rows — no state
with both, or with a partial insert, is ever produced. -/
theorem claim_C4_registration :
    (∀ (digest : List Char → String) (wn : String) (steps : List StepSpec) (st : RegState),
      (workerRowsFor st wn).length ≤ 1 →
      (workerRowsFor (register_worker digest wn steps false st).2 wn).length = 1 ∧
      register_worker digest wn steps (register_worker digest wn steps false st).1
          (register_worker digest wn steps false st).2 =
        register_worker digest wn steps false st) ∧
    (∀ digest : List Char → String, Function.Injective digest →
      ∀ (wn : String) (pre post : List StepSpec) (s s' : StepSpec),
      s'.processName = s.processName → s'.fullTableName = s.fullTableName →
      s'.keySourceSql = s.keySourceSql → s'.processKwargsStr ≠ s.processKwargsStr →
      worker_config_uuid digest wn (pre ++ s' :: post) ≠
        worker_config_uuid digest wn (pre ++ s :: post)) ∧
    (∀ (digest : List Char → String) (wn : String) (steps steps' : List StepSpec)
        (st : RegState),
      worker_config_uuid digest wn steps' ≠ worker_config_uuid digest wn steps →
      (workerRowsFor st wn).length ≤ 1 →
      workerRowsFor (register_worker digest wn steps' false
          (register_worker digest wn steps false st).2).2 wn =
        [⟨wn, worker_config_uuid digest wn steps'⟩] ∧
      (⟨wn, worker_config_uuid digest wn steps⟩ : RegisteredWorkerRow) ∉
        (register_worker digest wn steps' false
          (register_worker digest wn steps false st).2).2.workers ∧
      procRowsFor (register_worker digest wn steps' false
          (register_worker digest wn steps false st).2).2 wn =
        (workerEntriesFrom digest wn 0 steps').map (fun kv => ⟨wn, kv.1, kv.2⟩)) := by
  refine ⟨?_, worker_config_uuid_ne, ?_⟩
  · intro digest wn steps st hlen
    constructor
    · rw [register_first_rows digest wn steps st hlen]
      rfl
    · by_cases hmem :
          (⟨wn, worker_config_uuid digest wn steps⟩ : RegisteredWorkerRow) ∈ st.workers
      · rw [register_of_mem digest wn steps st hmem]
        exact register_of_mem digest wn steps st hmem
      · rw [register_of_not_mem digest wn steps st hmem]
        rfl
  · intro digest wn steps steps' st hdiff hlen
    have h1 := register_first_rows digest wn steps st hlen
    have hmem' : (⟨wn, worker_config_uuid digest wn steps'⟩ : RegisteredWorkerRow) ∉
        (register_worker digest wn steps false st).2.workers := by
      intro hmem
      have hin : (⟨wn, worker_config_uuid digest wn steps'⟩ : RegisteredWorkerRow) ∈
          workerRowsFor (register_worker digest wn steps false st).2 wn :=
        List.mem_filter.mpr ⟨hmem, by simp⟩
      rw [h1] at hin
      exact hdiff (congrArg RegisteredWorkerRow.workerConfigUuid (List.mem_singleton.mp hin))
    rw [register_of_not_mem digest wn steps' _ hmem']
    refine ⟨filter_key_append_insert _ _ _ _
        (fun r hr => by rw [List.mem_singleton.mp hr]), ?_,
      filter_key_append_insert _ _ _ _ ?_⟩
    · intro hmem
      rcases List.mem_append.mp hmem with h | h
      · have hcond := (List.mem_filter.mp h).2
        simp at hcond
      · exact hdiff
          (congrArg RegisteredWorkerRow.workerConfigUuid (List.mem_singleton.mp h)).symm
    · intro r hr
      rcases List.mem_map.mp hr with ⟨kv, _, rfl⟩
      rfl

/-- Witness for C4 at a concrete worker with one step, its registration
into an empty ledger, and a kwargs change. -/
theorem claim_C4_witness :
    (workerRowsFor (register_worker String.mk "w"
        [⟨"p", "ft", none, "kw"⟩] false ⟨[], []⟩).2 "w").length = 1 ∧
    worker_config_uuid String.mk "w" [⟨"p", "ft", none, "kw2"⟩] ≠
      worker_config_uuid String.mk "w" [⟨"p", "ft", none, "kw"⟩] ∧
    workerRowsFor (register_worker String.mk "w" [⟨"p", "ft", none, "kw2"⟩] false
        (register_worker String.mk "w" [⟨"p", "ft", none, "kw"⟩] false ⟨[], []⟩).2).2 "w"
      = [⟨"w", worker_config_uuid String.mk "w" [⟨"p", "ft", none, "kw2"⟩]⟩] := by
  have hinj : Function.Injective String.mk := by
    intro a b h
    simpa using congrArg String.data h
  have hB := claim_C4_registration.2.1 String.mk hinj "w" [] []
    ⟨"p", "ft", none, "kw"⟩ ⟨"p", "ft", none, "kw2"⟩ rfl rfl rfl (by decide)
  exact ⟨(claim_C4_registration.1 String.mk "w" [⟨"p", "ft", none, "kw"⟩] ⟨[], []⟩
      (by simp [workerRowsFor])).1,
    hB,
    (claim_C4_registration.2.2 String.mk "w" [⟨"p", "ft", none, "kw"⟩]
      [⟨"p", "ft", none, "kw2"⟩] ⟨[], []⟩ hB (by simp [workerRowsFor])).1⟩

/-! ### C5: `run()` with `run_duration = 0` -/

/-- Total number of ErrorLog upserts performed during the first `k` cycles,
given the number performed in each cycle. -/
def errorUpsertsTotal (perCycle : Nat → Nat) : Nat → Nat
  | 0 => 0
  | k + 1 => errorUpsertsTotal perCycle k + perCycle k

/-- C5 counterexample: with `run_duration = 0` the very first
`_keep_running()` check already fails (elapsed `>= 0 = run_duration`), so
`run()` executes zero cycles — not one. -/
theorem claim_C5_counterexample :
    stopsAtCycle ⟨0, -1⟩ ⟨fun k => (k : ℚ), fun _ => CycleOutcome.ok 0⟩ 0 ∧
    ¬ stopsAtCycle ⟨0, -1⟩ ⟨fun k => (k : ℚ), fun _ => CycleOutcome.ok 0⟩ 1 := by
  have hf : keepAt ⟨0, -1⟩ ⟨fun k => (k : ℚ), fun _ => CycleOutcome.ok 0⟩ 0 = false := by
    show keepRunning ((0 : Nat) : ℚ) 0 (-1) (idledAfter _ 0) = false
    refine (keepRunning_eq_false_iff _ _ _ _).mpr (Or.inl ⟨le_refl 0, by norm_num⟩)
  constructor
  · exact ⟨hf, fun j hj => absurd hj (Nat.not_lt_zero j)⟩
  · intro h
    have ht := h.2 0 (by decide)
    rw [ht] at hf
    cases hf

/-- C5 (amended): with `run_duration = 0` the loop stops before the first
cycle: zero cycles execute, `register_worker` (called before the loop) has
inserted exactly one RegisteredWorker row and one Process row for a fresh
single-step worker, and zero ErrorLog upserts are performed. -/
theorem claim_C5_zero_cycles :
    (∀ (elapsedAt : Nat → ℚ) (out : Nat → CycleOutcome) (mic : Int),
      0 ≤ elapsedAt 0 → stopsAtCycle ⟨0, mic⟩ ⟨elapsedAt, out⟩ 0) ∧
    (∀ (digest : List Char → String) (wn : String) (step : StepSpec),
      register_worker digest wn [step] false ⟨[], []⟩ =
        (true, ⟨[⟨wn, worker_config_uuid digest wn [step]⟩],
          [⟨wn, 0, process_config_uuid digest wn 0 step⟩]⟩)) ∧
    (∀ perCycle : Nat → Nat, errorUpsertsTotal perCycle 0 = 0) := by
  refine ⟨?_, ?_, fun _ => rfl⟩
  · intro elapsedAt out mic h0
    refine ⟨?_, fun j hj => absurd hj (Nat.not_lt_zero j)⟩
    show keepRunning (elapsedAt 0) 0 mic (idledAfter out 0) = false
    refine (keepRunning_eq_false_iff _ _ _ _).mpr (Or.inl ⟨le_refl 0, ?_⟩)
    exact_mod_cast h0
  · intro digest wn step
    rfl

/-- Witness for C5 (amended) at a concrete trace and worker. -/
theorem claim_C5_witness :
    stopsAtCycle ⟨0, (-1 : Int)⟩ ⟨fun _ => 0, fun _ => CycleOutcome.ok 0⟩ 0 ∧
    register_worker String.mk "w" [⟨"p", "ft", none, "kw"⟩] false ⟨[], []⟩ =
      (true, ⟨[⟨"w", worker_config_uuid String.mk "w" [⟨"p", "ft", none, "kw"⟩]⟩],
        [⟨"w", 0, process_config_uuid String.mk "w" 0 ⟨"p", "ft", none, "kw"⟩⟩]⟩) :=
  ⟨claim_C5_zero_cycles.1 (fun _ => 0) (fun _ => CycleOutcome.ok 0) (-1) (by norm_num),
   claim_C5_zero_cycles.2.1 String.mk "w" ⟨"p", "ft", none, "kw"⟩⟩

end DJWorker
